import Mathlib

/-!
Verification of the inventory-management service (items + suppliers CRUD,
search, reporting) against its natural-language specification.

The JavaScript sources are embedded shallowly:

* JavaScript numbers are modelled by the type JsNum: either an exact
  rational or NaN.  All values occurring in the repository and in the
  specification examples are exactly representable, and the code applies
  no rounding, so rational arithmetic coincides with the floating-point
  arithmetic actually performed there.  Reading an absent field and using
  it in arithmetic yields NaN, matching the behaviour of undefined under
  the + and * operators.
* Documents are records with Option-typed fields where the underlying
  JSON field may be absent.
* The Mongo-backed repository is modelled by in-memory lists of records;
  each controller action becomes a pure function from the repository
  state (and a current-time parameter where Date.now is consulted) to a
  new state together with an explicit result value.
* A query string value that is passed through the $regex operator is
  modelled by a small pattern matcher covering literal characters,
  backslash escapes and the dot metacharacter; theorems about regex
  behaviour are restricted to patterns inside this faithfully modelled
  fragment.
-/

/-- A JavaScript number: an exact rational, or NaN (the result of
arithmetic on undefined / missing fields). -/
inductive JsNum where
  | num (q : ℚ)
  | nan
deriving DecidableEq, Repr

/-- JavaScript +: NaN propagates. -/
def jsAdd : JsNum → JsNum → JsNum
  | .num a, .num b => .num (a + b)
  | _, _ => .nan

/-- JavaScript *: NaN propagates. -/
def jsMul : JsNum → JsNum → JsNum
  | .num a, .num b => .num (a * b)
  | _, _ => .nan

/-- Reading a possibly-missing numeric field for use in arithmetic:
an absent field behaves as NaN (undefined coerces to NaN). -/
def jsRead : Option ℚ → JsNum
  | some q => .num q
  | none => .nan

/-- JavaScript comparison value <= bound: false when the value is NaN
(undefined <= n is false). -/
def jsLe (x : JsNum) (bound : ℚ) : Bool :=
  match x with
  | .num q => decide (q ≤ bound)
  | .nan => false

/-- Truthiness of an optional string, as tested by an if statement in
JavaScript: absent and empty strings are falsy. -/
def jsTruthyStr : Option String → Bool
  | some s => s ≠ ""
  | none => false

/-- Removal of leading and trailing whitespace (the trim setter and
the trim sanitizer), embedded over the character list so that concrete
payloads evaluate inside the kernel. -/
def strTrim (s : String) : String :=
  String.mk (((s.data.dropWhile Char.isWhitespace).reverse.dropWhile
    Char.isWhitespace).reverse)

/-- An Item document as stored by the repository and surfaced by
Item.find().  Fields that a raw document may lack are Option-typed;
description and the timestamps are irrelevant to search and reporting
and carried for the mutation model. -/
structure ItemRec where
  id : String
  name : String
  category : String
  stock : Option ℚ
  price : Option ℚ
  supplier : String
  description : Option String := none
  createdAt : ℚ := 0
  updatedAt : ℚ := 0
deriving DecidableEq, Repr

/-- Per-category accumulator built by the byCategory object in
getInventoryReport: count, totalStock, totalValue. -/
structure CatAgg where
  count : Nat
  totalStock : JsNum
  totalValue : JsNum
deriving DecidableEq, Repr

/-- One entry of the categorySummary array produced by
getInventoryReport. -/
structure CatSummary where
  category : String
  itemCount : Nat
  totalStock : JsNum
  totalValue : JsNum
deriving DecidableEq, Repr

/-- One entry of the lowStock array produced by getInventoryReport:
the projection of an item to id, name and stock. -/
structure LowStockEntry where
  id : String
  name : String
  stock : Option ℚ
deriving DecidableEq, Repr

/-- The payload of the inventory report response. -/
structure InvReport where
  totalItems : Nat
  totalStock : JsNum
  totalValue : JsNum
  byCategory : List CatSummary
  lowStock : List LowStockEntry
deriving DecidableEq, Repr

/-- Update of the first entry of the byCategory association list whose
key equals the given category: count += 1, totalStock += s,
totalValue += v.  JavaScript objects with non-numeric string keys
preserve insertion order, so an association list is a faithful model;
the item categories are constrained to the non-numeric schema enum. -/
def bumpEntry : List (String × CatAgg) → String → JsNum → JsNum → List (String × CatAgg)
  | [], _, _, _ => []
  | (k, a) :: rest, c, s, v =>
    if k = c then
      (k, ⟨a.count + 1, jsAdd a.totalStock s, jsAdd a.totalValue v⟩) :: rest
    else
      (k, a) :: bumpEntry rest c s v

/-- One step of the items.forEach loop building the byCategory object:
if the category key is absent, install the zero accumulator, then
increment it with this item's stock and value. -/
def byCatStep (m : List (String × CatAgg)) (it : ItemRec) : List (String × CatAgg) :=
  let m1 := if (m.lookup it.category).isSome then m
            else m ++ [(it.category, ⟨0, .num 0, .num 0⟩)]
  bumpEntry m1 it.category (jsRead it.stock) (jsMul (jsRead it.stock) (jsRead it.price))

/-- The byCategory object of getInventoryReport, built by iterating
byCatStep over the items. -/
def byCategoryMap (items : List ItemRec) : List (String × CatAgg) :=
  items.foldl byCatStep []

/-- Embedding of getInventoryReport (items controller): totals by
reduce from 0, byCategory by the forEach object build followed by
Object.keys mapping, lowStock by filtering stock <= 5 and projecting
to id, name, stock. -/
def getInventoryReport (items : List ItemRec) : InvReport :=
  { totalItems := items.length
    totalStock := items.foldl (fun sum it => jsAdd sum (jsRead it.stock)) (.num 0)
    totalValue := items.foldl
      (fun sum it => jsAdd sum (jsMul (jsRead it.stock) (jsRead it.price))) (.num 0)
    byCategory := (byCategoryMap items).map
      (fun p => ⟨p.1, p.2.count, p.2.totalStock, p.2.totalValue⟩)
    lowStock := (items.filter (fun it => jsLe (jsRead it.stock) 5)).map
      (fun it => ⟨it.id, it.name, it.stock⟩) }

/-- The summary part of the reports/inventory handler in server.js:
totals computed with (item.stock or 0) and (item.price or 0) guards,
and lowStock filtered with the same guard and not projected.  That
handler produces no byCategory grouping. -/
structure ServerInvSummary where
  totalItems : Nat
  totalStock : JsNum
  totalValue : JsNum
  lowStock : List ItemRec
deriving DecidableEq, Repr

/-- Embedding of the reports/inventory route handler of server.js. -/
def serverInventoryReport (items : List ItemRec) : ServerInvSummary :=
  { totalItems := items.length
    totalStock := items.foldl (fun sum it => jsAdd sum (.num (it.stock.getD 0))) (.num 0)
    totalValue := items.foldl
      (fun sum it => jsAdd sum (.num ((it.stock.getD 0) * (it.price.getD 0)))) (.num 0)
    lowStock := items.filter (fun it => decide ((it.stock.getD 0) ≤ 5)) }

/-- Token of a regular-expression pattern in the modelled fragment:
a literal character or the dot metacharacter. -/
inductive RTok where
  | lit (c : Char)
  | dot
deriving DecidableEq, Repr

/-- Parse a pattern string into tokens: a backslash escapes the next
character, an unescaped dot is the any-character metacharacter, and
every other character stands for itself.  Quantifiers, classes,
anchors and alternation are outside the fragment this model covers;
theorems about regex behaviour restrict the pattern accordingly. -/
def parseRegex : List Char → List RTok
  | [] => []
  | c :: rest =>
    if c = '\\' then
      match rest with
      | [] => [.lit '\\']
      | d :: rest2 => .lit d :: parseRegex rest2
    else if c = '.' then .dot :: parseRegex rest
    else .lit c :: parseRegex rest

/-- Does a token match one character, case-insensitively (the i
option of the $regex operator)?  Dot matches everything except a
newline. -/
def rtokMatch : RTok → Char → Bool
  | .lit l, c => l.toLower = c.toLower
  | .dot, c => c ≠ '\n'

/-- Do the tokens match a prefix of the character list? -/
def matchHere : List RTok → List Char → Bool
  | [], _ => true
  | _ :: _, [] => false
  | t :: ts, c :: cs => rtokMatch t c && matchHere ts cs

/-- Unanchored regex search: the tokens match at some position. -/
def regexSearch (ts : List RTok) : List Char → Bool
  | [] => matchHere ts []
  | c :: cs => matchHere ts (c :: cs) || regexSearch ts cs

/-- field matches { $regex: pat, $options: i }. -/
def regexTest (pat hay : String) : Bool :=
  regexSearch (parseRegex pat.data) hay.data

/-- Case-insensitive substring occurrence of pat inside hay (the
specification wording for the q filter). -/
def containsSub (p : List Char) : List Char → Bool
  | [] => p.isEmpty
  | c :: cs => p.isPrefixOf (c :: cs) || containsSub p cs

/-- Specification-side predicate: pat occurs case-insensitively as a
substring of hay. -/
def containsCI (hay pat : String) : Bool :=
  containsSub (pat.data.map Char.toLower) (hay.data.map Char.toLower)

/-- The stock condition held by query.stock after buildQuery: a single
$gte or a single $lte bound (one assignment overwrites the other). -/
inductive StockCond where
  | gte (n : ℚ)
  | lte (n : ℚ)
deriving DecidableEq, Repr

/-- The Mongo query object assembled by searchItems. -/
structure SearchQuery where
  qPat : Option String
  category : Option String
  stockCond : Option StockCond
deriving DecidableEq, Repr

/-- Embedding of the query-building statements of searchItems: start
from the empty query; if q is truthy install the $or of two regex
clauses; if category is truthy install the exact-match clause; if
minStock is supplied assign query.stock := { $gte }; if maxStock is
supplied assign query.stock := { $lte }, overwriting any previous
value of query.stock. -/
def buildSearchQuery (q category : Option String) (minStock maxStock : Option ℚ) :
    SearchQuery :=
  let q0 : SearchQuery := ⟨none, none, none⟩
  let q1 := if jsTruthyStr q then { q0 with qPat := q } else q0
  let q2 := if jsTruthyStr category then { q1 with category := category } else q1
  let q3 := match minStock with
    | some n => { q2 with stockCond := some (.gte n) }
    | none => q2
  match maxStock with
  | some n => { q3 with stockCond := some (.lte n) }
  | none => q3

/-- Mongo evaluation of the assembled query against one item document:
the $or clause tests the case-insensitive regex against name or
category, the category clause is an exact match, and a $gte / $lte
bound on stock requires the field to be present and within the bound. -/
def matchesQuery (qu : SearchQuery) (it : ItemRec) : Bool :=
  (match qu.qPat with
   | none => true
   | some pat => regexTest pat it.name || regexTest pat it.category) &&
  (match qu.category with
   | none => true
   | some c => it.category = c) &&
  (match qu.stockCond with
   | none => true
   | some (.gte n) => match it.stock with
     | some s => decide (n ≤ s)
     | none => false
   | some (.lte n) => match it.stock with
     | some s => decide (s ≤ n)
     | none => false)

/-- Embedding of searchItems (items controller): build the query from
the four request parameters and return the items matching it. -/
def searchItems (items : List ItemRec) (q category : Option String)
    (minStock maxStock : Option ℚ) : List ItemRec :=
  items.filter (matchesQuery (buildSearchQuery q category minStock maxStock))

/-- Specification-side search: the subset of items satisfying the
conjunction of all supplied filters, with q as case-insensitive
substring of name or category, category as exact match, and minStock
and maxStock as inclusive bounds on stock that each constrain the
result whenever supplied. -/
def specSearchItems (items : List ItemRec) (q category : Option String)
    (minStock maxStock : Option ℚ) : List ItemRec :=
  items.filter (fun it =>
    (match q with
     | none => true
     | some pat => containsCI it.name pat || containsCI it.category pat) &&
    (match category with
     | none => true
     | some c => it.category = c) &&
    (match minStock with
     | none => true
     | some n => match it.stock with
       | some s => decide (n ≤ s)
       | none => false) &&
    (match maxStock with
     | none => true
     | some n => match it.stock with
       | some s => decide (s ≤ n)
       | none => false))

/-- The fixed category enumeration of the Item schema and validators. -/
def itemCategories : List String :=
  ["Electronics", "Clothing", "Food", "Books", "General", "Office Supplies"]

/-- Syntactic Mongo identifier check (isMongoId): a 24-character
hexadecimal token. -/
def isMongoId (s : String) : Bool :=
  s.length = 24 && s.data.all (fun c =>
    c.isDigit || ('a' ≤ c && c ≤ 'f') || ('A' ≤ c && c ≤ 'F'))

/-- An incoming item payload.  express-validator validates the string
form of each field; the payload is modelled already typed, with Option
for fields the request body may omit.  A numeric validator applied to
an absent field fails (the missing value stringifies to the empty
string, which is neither an integer nor a float). -/
structure ItemPayload where
  name : Option String := none
  category : Option String := none
  stock : Option Int := none
  price : Option ℚ := none
  supplier : Option String := none
  description : Option String := none
deriving DecidableEq, Repr

namespace Validation

/-- Embedding of the validateItem chain of the validation middleware
(express-validator variant): every chain runs on every request, each
failed check appends one error carrying the field name and its
message, and the terminal handler returns the whole collected array. -/
def validateItem (p : ItemPayload) : List (String × String) :=
  (let v := strTrim (p.name.getD "")
   (if v = "" then [("name", "Item name is required")] else []) ++
   (if 100 < v.length then [("name", "Item name cannot exceed 100 characters")] else [])) ++
  (let v := strTrim (p.category.getD "")
   (if v = "" then [("category", "Category is required")] else []) ++
   (if itemCategories.contains v then [] else [("category", "Invalid category")])) ++
  (match p.stock with
   | some n => if n < 0 then [("stock", "Stock must be a non-negative integer")] else []
   | none => [("stock", "Stock must be a non-negative integer")]) ++
  (match p.price with
   | some q => if q < 0 then [("price", "Price must be a non-negative number")] else []
   | none => [("price", "Price must be a non-negative number")]) ++
  (match p.supplier with
   | some s => if isMongoId s then [] else [("supplier", "Invalid supplier ID")]
   | none => [("supplier", "Invalid supplier ID")]) ++
  (match p.description with
   | some d => if 500 < d.length then [("description", "Description cannot exceed 500 characters")] else []
   | none => [])

/-- Embedding of the validateItemPartial chain: each field is optional
and checked only when present.  The chain as written in the source
contains rules for name, category, stock, price and supplier, and no
rule for description. -/
def validateItemPartial (p : ItemPayload) : List (String × String) :=
  (match p.name with
   | some s =>
     let v := strTrim s
     (if v = "" then [("name", "Item name cannot be empty")] else []) ++
     (if 100 < v.length then [("name", "Item name cannot exceed 100 characters")] else [])
   | none => []) ++
  (match p.category with
   | some s => if itemCategories.contains (strTrim s) then [] else [("category", "Invalid category")]
   | none => []) ++
  (match p.stock with
   | some n => if n < 0 then [("stock", "Stock must be a non-negative integer")] else []
   | none => []) ++
  (match p.price with
   | some q => if q < 0 then [("price", "Price must be a non-negative number")] else []
   | none => []) ++
  (match p.supplier with
   | some s => if isMongoId s then [] else [("supplier", "Invalid supplier ID")]
   | none => [])

end Validation

namespace AdHoc

/-- Embedding of the ad hoc validateItem middleware variant: a chain
of early returns, each producing a single error string.  The isNaN
guard of the source is vacuous in this typed model, where a present
stock or price is a number. -/
def validateItem (p : ItemPayload) : Except String Unit :=
  if !jsTruthyStr p.name || !jsTruthyStr p.category then
    .error "Name and category are required"
  else if (match p.stock with | some n => decide (n < 0) | none => false) then
    .error "Stock must be a positive number"
  else if (match p.price with | some q => decide (q < 0) | none => false) then
    .error "Price must be a positive number"
  else
    .ok ()

end AdHoc

/-- A Supplier document as stored by the repository. -/
structure SupplierRec where
  id : String
  name : String
  contact : Option String := none
  phone : Option String := none
  email : Option String := none
  address : Option String := none
  website : Option String := none
  status : String := "Active"
  paymentTerms : String := "Net 30"
  createdAt : ℚ := 0
  updatedAt : ℚ := 0
deriving DecidableEq, Repr

/-- The repository state: the two collections. -/
structure DB where
  suppliers : List SupplierRec
  items : List ItemRec
deriving DecidableEq, Repr

/-- Outcome of the supplier-delete controller action. -/
inductive DeleteSupplierResult where
  | deleted
  | notFound
  | hasDependents (count : Nat)
deriving DecidableEq, Repr

/-- Embedding of deleteSupplier (suppliers controller): first count
the items whose supplier field references the given identifier
(Item.countDocuments); a positive count fails with the dependents
condition before any lookup of the supplier itself; otherwise
findByIdAndDelete removes the supplier when it exists and reports
not-found when it does not. -/
def deleteSupplier (db : DB) (id : String) : DB × DeleteSupplierResult :=
  let itemsCount := (db.items.filter (fun it => it.supplier = id)).length
  if 0 < itemsCount then
    (db, .hasDependents itemsCount)
  else
    match db.suppliers.find? (fun s => s.id = id) with
    | none => (db, .notFound)
    | some _ =>
      ({ db with suppliers := db.suppliers.filter (fun s => s.id ≠ id) }, .deleted)

/-- Outcome of the item-create controller action. -/
inductive CreateItemResult where
  | created (it : ItemRec)
  | supplierNotFound
  | duplicateName
  | validationError
deriving DecidableEq, Repr

/-- The Item document constructed by new Item(req.body) followed by
save: schema defaults fill category (General), stock (0) and price
(0); the string setters trim; createdAt defaults to the current time
and the pre-save hook assigns updatedAt the current time. -/
def itemDocOfPayload (p : ItemPayload) (newId : String) (now : ℚ) : ItemRec :=
  { id := newId
    name := strTrim (p.name.getD "")
    category := (p.category.map strTrim).getD "General"
    stock := some ((p.stock.getD 0 : Int) : ℚ)
    price := some (p.price.getD 0)
    supplier := p.supplier.getD ""
    description := p.description.map strTrim
    createdAt := now
    updatedAt := now }

/-- Mongoose document validation run by save against the Item schema:
name required, non-empty after trim, at most 100 characters; category
inside the enum; stock and price non-negative; supplier required;
description at most 500 characters when present. -/
def itemDocValid (p : ItemPayload) : Bool :=
  strTrim (p.name.getD "") ≠ "" &&
  (strTrim (p.name.getD "")).length ≤ 100 &&
  itemCategories.contains ((p.category.map strTrim).getD "General") &&
  0 ≤ p.stock.getD 0 &&
  0 ≤ p.price.getD 0 &&
  p.supplier.isSome &&
  (match p.description with | some d => decide ((strTrim d).length ≤ 500) | none => true)

/-- The save step of createItem: schema validation, then the unique
index on name (a duplicate insert surfaces the duplicate-key error the
controller reclassifies), then the insert of the constructed
document. -/
def saveNewItem (db : DB) (p : ItemPayload) (newId : String) (now : ℚ) :
    DB × CreateItemResult :=
  if !itemDocValid p then
    (db, .validationError)
  else if (db.items.find? (fun it => it.name = strTrim (p.name.getD ""))).isSome then
    (db, .duplicateName)
  else
    let doc := itemDocOfPayload p newId now
    ({ db with items := db.items ++ [doc] }, .created doc)

/-- Embedding of createItem (items controller): when the payload
carries a truthy supplier value, resolve it with Supplier.findById
before anything is written and abort with the supplier-not-found
condition when the lookup misses; then construct and save the item. -/
def createItem (db : DB) (p : ItemPayload) (newId : String) (now : ℚ) :
    DB × CreateItemResult :=
  if jsTruthyStr p.supplier then
    match p.supplier with
    | some s =>
      if (db.suppliers.find? (fun sup => sup.id = s)).isSome then
        saveNewItem db p newId now
      else
        (db, .supplierNotFound)
    | none => saveNewItem db p newId now
  else
    saveNewItem db p newId now

/-- Outcome of the item-update controller actions. -/
inductive UpdateItemResult where
  | updated (it : ItemRec)
  | notFound
  | validationError
deriving DecidableEq, Repr

/-- Validators run by findByIdAndUpdate with runValidators on the
paths present in the update: the per-field schema rules.  The
supplier path only has to be a castable identifier; no existence
lookup happens on the update path. -/
def updatePayloadValid (p : ItemPayload) : Bool :=
  (match p.name with
   | some s => (strTrim s) ≠ "" && decide ((strTrim s).length ≤ 100)
   | none => true) &&
  (match p.category with
   | some s => itemCategories.contains (strTrim s)
   | none => true) &&
  (match p.stock with | some n => decide (0 ≤ n) | none => true) &&
  (match p.price with | some q => decide (0 ≤ q) | none => true) &&
  (match p.description with
   | some d => decide ((strTrim d).length ≤ 500)
   | none => true)

/-- The effect of findByIdAndUpdate on the stored document: every
field present in the update body is assigned (through the schema
setters); absent fields, createdAt and updatedAt are untouched — no
save hook runs on this path. -/
def applyItemUpdate (it : ItemRec) (p : ItemPayload) : ItemRec :=
  { it with
    name := (p.name.map strTrim).getD it.name
    category := (p.category.map strTrim).getD it.category
    stock := match p.stock with | some n => some ((n : Int) : ℚ) | none => it.stock
    price := match p.price with | some q => some q | none => it.price
    supplier := p.supplier.getD it.supplier
    description := match p.description with | some d => some (strTrim d) | none => it.description }

/-- Embedding of updateItem (items controller): findByIdAndUpdate with
runValidators; the body is applied to the stored document without any
supplier resolution.  (The unique-name index also applies at this
write; no claim depends on that path and it is not modelled.) -/
def updateItem (db : DB) (id : String) (p : ItemPayload) : DB × UpdateItemResult :=
  match db.items.find? (fun it => it.id = id) with
  | none => (db, .notFound)
  | some it =>
    if updatePayloadValid p then
      let ni := applyItemUpdate it p
      ({ db with items := db.items.map (fun j => if j.id = id then ni else j) }, .updated ni)
    else
      (db, .validationError)

/-- The status enumeration of the Supplier schema. -/
def supplierStatuses : List String := ["Active", "Inactive", "Pending"]

/-- The paymentTerms enumeration of the Supplier schema. -/
def supplierPaymentTerms : List String := ["Net 30", "Net 60", "COD", "Advance"]

/-- An incoming supplier payload; an updatedAt member is carried to
make explicit that the update paths only touch it when the body itself
names it. -/
structure SupplierPayload where
  name : Option String := none
  contact : Option String := none
  phone : Option String := none
  email : Option String := none
  address : Option String := none
  website : Option String := none
  status : Option String := none
  paymentTerms : Option String := none
  updatedAt : Option ℚ := none
deriving DecidableEq, Repr

/-- Outcome of the supplier-create controller action. -/
inductive CreateSupplierResult where
  | created (s : SupplierRec)
  | duplicateName
  | validationError
deriving DecidableEq, Repr

/-- Outcome of the supplier-update controller actions. -/
inductive UpdateSupplierResult where
  | updated (s : SupplierRec)
  | notFound
  | validationError
deriving DecidableEq, Repr

/-- Schema validation of a supplier document on save: name required,
non-empty after trim, at most 100 characters; status and paymentTerms
inside their enumerations.  The format patterns of the optional
contact fields (phone, email, website, address lengths) are not
modelled: no claim depends on them. -/
def supplierDocValid (p : SupplierPayload) : Bool :=
  strTrim (p.name.getD "") ≠ "" &&
  (strTrim (p.name.getD "")).length ≤ 100 &&
  supplierStatuses.contains (p.status.getD "Active") &&
  supplierPaymentTerms.contains (p.paymentTerms.getD "Net 30")

/-- The Supplier document constructed by new Supplier(req.body) and
save: defaults for status and paymentTerms, createdAt defaulting to
the current time, and the pre-save hook assigning updatedAt the
current time. -/
def supplierDocOfPayload (p : SupplierPayload) (newId : String) (now : ℚ) : SupplierRec :=
  { id := newId
    name := strTrim (p.name.getD "")
    contact := p.contact.map strTrim
    phone := p.phone.map strTrim
    email := p.email.map strTrim
    address := p.address.map strTrim
    website := p.website.map strTrim
    status := p.status.getD "Active"
    paymentTerms := p.paymentTerms.getD "Net 30"
    createdAt := now
    updatedAt := now }

/-- Embedding of createSupplier (suppliers controller): save a newly
constructed document, reclassifying a duplicate-key failure of the
unique name index. -/
def createSupplier (db : DB) (p : SupplierPayload) (newId : String) (now : ℚ) :
    DB × CreateSupplierResult :=
  if !supplierDocValid p then
    (db, .validationError)
  else if (db.suppliers.find? (fun s => s.name = strTrim (p.name.getD ""))).isSome then
    (db, .duplicateName)
  else
    let doc := supplierDocOfPayload p newId now
    ({ db with suppliers := db.suppliers ++ [doc] }, .created doc)

/-- Validators run on the paths present in a supplier update body. -/
def supplierUpdateValid (p : SupplierPayload) : Bool :=
  (match p.name with
   | some s => (strTrim s) ≠ "" && decide ((strTrim s).length ≤ 100)
   | none => true) &&
  (match p.status with | some s => supplierStatuses.contains s | none => true) &&
  (match p.paymentTerms with | some s => supplierPaymentTerms.contains s | none => true)

/-- The effect of findByIdAndUpdate on a stored supplier: each field
named by the body is assigned; fields the body does not name —
updatedAt among them — keep their stored values, because no save hook
runs on this path. -/
def applySupplierUpdate (s : SupplierRec) (p : SupplierPayload) : SupplierRec :=
  { s with
    name := (p.name.map strTrim).getD s.name
    contact := match p.contact with | some c => some (strTrim c) | none => s.contact
    phone := match p.phone with | some c => some (strTrim c) | none => s.phone
    email := match p.email with | some c => some (strTrim c) | none => s.email
    address := match p.address with | some c => some (strTrim c) | none => s.address
    website := match p.website with | some c => some (strTrim c) | none => s.website
    status := p.status.getD s.status
    paymentTerms := p.paymentTerms.getD s.paymentTerms
    updatedAt := p.updatedAt.getD s.updatedAt }

/-- Shared body of the two supplier update actions: mongoose treats
the plain update object of the PUT handler exactly as the explicit
$set of the PATCH handler. -/
def findByIdAndUpdateSupplier (db : DB) (id : String) (p : SupplierPayload) :
    DB × UpdateSupplierResult :=
  match db.suppliers.find? (fun s => s.id = id) with
  | none => (db, .notFound)
  | some s =>
    if supplierUpdateValid p then
      let ns := applySupplierUpdate s p
      ({ db with suppliers := db.suppliers.map (fun t => if t.id = id then ns else t) },
       .updated ns)
    else
      (db, .validationError)

/-- Embedding of updateSupplier (PUT). -/
def updateSupplier (db : DB) (id : String) (p : SupplierPayload) :
    DB × UpdateSupplierResult :=
  findByIdAndUpdateSupplier db id p

/-- Embedding of partialUpdateSupplier (PATCH, explicit $set). -/
def partialUpdateSupplier (db : DB) (id : String) (p : SupplierPayload) :
    DB × UpdateSupplierResult :=
  findByIdAndUpdateSupplier db id p

/-- C1: on supplier delete, the operation counts the Items referencing
the identifier; a positive count fails with the has-dependents
condition carrying that count and leaves the state (the supplier
record included) untouched; a zero count never produces the
has-dependents condition. -/
theorem c1_deleteSupplier_dependents (db : DB) (id : String) (cnt : Nat)
    (hcnt : cnt = (db.items.filter (fun it => it.supplier = id)).length) :
    (0 < cnt → deleteSupplier db id = (db, .hasDependents cnt)) ∧
    (cnt = 0 → ∀ n, (deleteSupplier db id).2 ≠ DeleteSupplierResult.hasDependents n) := by
  subst hcnt
  constructor
  · intro h
    simp only [deleteSupplier]
    rw [if_pos h]
  · intro h n
    simp only [deleteSupplier]
    rw [if_neg (by omega)]
    cases db.suppliers.find? (fun s => s.id = id) <;> simp

/-- Two items referencing supplier s1 and one supplier record, for the
count=2 scenario of the specification. -/
def c1DB : DB :=
  { suppliers := [{ id := "s1", name := "Acme" }]
    items :=
      [{ id := "i1", name := "Bolt", category := "General", stock := some 1,
         price := some 1, supplier := "s1" },
       { id := "i2", name := "Nut", category := "General", stock := some 2,
         price := some 1, supplier := "s1" }] }

/-- A supplier with no referencing items. -/
def c1DBFree : DB :=
  { suppliers := [{ id := "s2", name := "Blue" }], items := [] }

/-- Witness for c1_deleteSupplier_dependents: with exactly two items
referencing s1 the delete fails with count 2 and changes nothing, and
with zero references no has-dependents condition arises. -/
theorem c1_deleteSupplier_dependents_witness :
    deleteSupplier c1DB "s1" = (c1DB, .hasDependents 2) ∧
    ∀ n, (deleteSupplier c1DBFree "s2").2 ≠ DeleteSupplierResult.hasDependents n :=
  ⟨(c1_deleteSupplier_dependents c1DB "s1" 2 rfl).1 (by omega),
   (c1_deleteSupplier_dependents c1DBFree "s2" 0 rfl).2 rfl⟩

/-- C10: the dependents count is checked before supplier existence:
with a positive count the delete fails with has-dependents even when
no supplier carries the identifier, and the not-found outcome forces a
zero count. -/
theorem c10_delete_order (db : DB) (id : String) (cnt : Nat)
    (hcnt : cnt = (db.items.filter (fun it => it.supplier = id)).length) :
    (0 < cnt → db.suppliers.find? (fun s => s.id = id) = none →
      deleteSupplier db id = (db, .hasDependents cnt)) ∧
    ((deleteSupplier db id).2 = .notFound → cnt = 0) := by
  subst hcnt
  constructor
  · intro h _
    simp only [deleteSupplier]
    rw [if_pos h]
  · intro h
    by_contra hne
    simp only [deleteSupplier] at h
    rw [if_pos (by omega)] at h
    exact absurd h (by simp)

/-- A database with an item referencing s9 while no supplier s9
exists. -/
def c10DB : DB :=
  { suppliers := []
    items := [{ id := "i1", name := "Bolt", category := "General", stock := some 1,
                price := some 1, supplier := "s9" }] }

/-- Witness for c10_delete_order: the orphaned reference keeps the
delete in the has-dependents branch although the supplier itself is
absent. -/
theorem c10_delete_order_witness :
    deleteSupplier c10DB "s9" = (c10DB, .hasDependents 1) :=
  (c10_delete_order c10DB "s9" 1 rfl).1 (by omega) rfl

/-- An existing item whose update will name a nonexistent supplier. -/
def c2Item : ItemRec :=
  { id := "i1", name := "Widget", category := "General", stock := some 1,
    price := some 1, supplier := "aaaaaaaaaaaaaaaaaaaaaaaa" }

/-- A repository with that item and no suppliers at all. -/
def c2DB : DB := { suppliers := [], items := [c2Item] }

/-- The update payload naming a supplier identifier that resolves to
nothing. -/
def c2Payload : ItemPayload := { supplier := some "bbbbbbbbbbbbbbbbbbbbbbbb" }

/-- C2 counterexample: an item update whose payload carries a supplier
identifier that resolves to no Supplier succeeds and writes the item
with the dangling reference, instead of failing with a
supplier-not-found condition and writing nothing. -/
theorem c2_updateItem_no_supplier_check_cex :
    c2DB.suppliers.find? (fun s => s.id = "bbbbbbbbbbbbbbbbbbbbbbbb") = none ∧
    updateItem c2DB "i1" c2Payload =
      ({ suppliers := [],
         items := [{ c2Item with supplier := "bbbbbbbbbbbbbbbbbbbbbbbb" }] },
       .updated { c2Item with supplier := "bbbbbbbbbbbbbbbbbbbbbbbb" }) :=
  ⟨rfl, rfl⟩

/-- C2 amended: on item create a truthy supplier value is resolved
before any write, a failed resolution aborts with the
supplier-not-found condition and an unchanged state, and a successful
resolution proceeds to the save; on item update no resolution happens
at all — an update naming any supplier identifier succeeds (given the
per-field validators pass) and stores that identifier. -/
theorem c2_supplier_resolution_amended :
    (∀ (db : DB) (p : ItemPayload) (newId : String) (now : ℚ) (s : String),
      p.supplier = some s → s ≠ "" →
      db.suppliers.find? (fun sup => sup.id = s) = none →
      createItem db p newId now = (db, .supplierNotFound)) ∧
    (∀ (db : DB) (p : ItemPayload) (newId : String) (now : ℚ) (s : String),
      p.supplier = some s →
      (db.suppliers.find? (fun sup => sup.id = s)).isSome →
      createItem db p newId now = saveNewItem db p newId now) ∧
    (∀ (db : DB) (id : String) (p : ItemPayload) (it : ItemRec) (s : String),
      db.items.find? (fun j => j.id = id) = some it →
      p.supplier = some s →
      updatePayloadValid p = true →
      (updateItem db id p).2 = .updated (applyItemUpdate it p) ∧
      (applyItemUpdate it p).supplier = s ∧
      applyItemUpdate it p ∈ (updateItem db id p).1.items) := by
  refine ⟨?_, ?_, ?_⟩
  · intro db p newId now s hs hne hfind
    simp only [createItem, jsTruthyStr, hs]
    rw [if_pos (by simpa using hne), hfind]
    simp
  · intro db p newId now s hs hfind
    simp only [createItem, jsTruthyStr, hs]
    by_cases hne : s = ""
    · subst hne
      simp [saveNewItem]
    · rw [if_pos (by simpa using hne)]
      simp only [hs, hfind, if_pos]
  · intro db id p it s hfind hs hval
    have hid : it.id = id := by
      have := List.find?_some hfind
      simpa using this
    have hmem : it ∈ db.items := List.mem_of_find?_eq_some hfind
    refine ⟨?_, by simp [applyItemUpdate, hs], ?_⟩
    · simp [updateItem, hfind, hval]
    · simp only [updateItem, hfind, hval, if_true]
      exact List.mem_map.mpr ⟨it, hmem, by simp [hid]⟩

/-- Witness for c2_supplier_resolution_amended: a create against an
empty supplier collection aborts with supplier-not-found, and the
update of the counterexample database succeeds while storing the
unresolvable identifier. -/
theorem c2_supplier_resolution_witness :
    createItem { suppliers := [], items := [] }
      { supplier := some "bbbbbbbbbbbbbbbbbbbbbbbb" } "i9" 0 =
      ({ suppliers := [], items := [] }, .supplierNotFound) ∧
    (updateItem c2DB "i1" c2Payload).2 =
      .updated (applyItemUpdate c2Item c2Payload) :=
  ⟨c2_supplier_resolution_amended.1 _ _ "i9" 0 _ rfl (by decide) rfl,
   (c2_supplier_resolution_amended.2.2 c2DB "i1" c2Payload c2Item
     "bbbbbbbbbbbbbbbbbbbbbbbb" rfl rfl rfl).1⟩

/-- A stored supplier whose updatedAt stems from its creation time 1. -/
def c9Sup : SupplierRec := { id := "s1", name := "Acme", createdAt := 1, updatedAt := 1 }

/-- Repository holding that supplier. -/
def c9DB : DB := { suppliers := [c9Sup], items := [] }

/-- C9 counterexample: a successful partial supplier update does not
refresh updatedAt — the stored record keeps the value 1 from creation
time, and the update path consults no clock at all. -/
theorem c9_update_timestamp_cex :
    partialUpdateSupplier c9DB "s1" { name := some "Nadir" } =
      ({ suppliers := [{ c9Sup with name := "Nadir" }], items := [] },
       .updated { c9Sup with name := "Nadir" }) ∧
    ({ c9Sup with name := "Nadir" } : SupplierRec).updatedAt = 1 :=
  ⟨rfl, rfl⟩

/-- C9 amended: updatedAt is refreshed by the save path only — a
created Item or Supplier carries the creation time — while the full
and partial update actions run through findByIdAndUpdate, fire no save
hook, and leave updatedAt exactly as stored whenever the body itself
does not name it. -/
theorem c9_updatedAt_amended :
    (∀ (db : DB) (p : SupplierPayload) (newId : String) (now : ℚ) (doc : SupplierRec),
      (createSupplier db p newId now).2 = .created doc → doc.updatedAt = now) ∧
    (∀ (db : DB) (p : ItemPayload) (newId : String) (now : ℚ) (doc : ItemRec),
      (createItem db p newId now).2 = .created doc → doc.updatedAt = now) ∧
    (∀ (db : DB) (id : String) (p : SupplierPayload) (s : SupplierRec)
       (ns : SupplierRec),
      db.suppliers.find? (fun t => t.id = id) = some s →
      p.updatedAt = none →
      (updateSupplier db id p).2 = .updated ns →
      ns.updatedAt = s.updatedAt) ∧
    (∀ (db : DB) (id : String) (p : SupplierPayload) (s : SupplierRec)
       (ns : SupplierRec),
      db.suppliers.find? (fun t => t.id = id) = some s →
      p.updatedAt = none →
      (partialUpdateSupplier db id p).2 = .updated ns →
      ns.updatedAt = s.updatedAt) ∧
    (∀ (db : DB) (id : String) (p : ItemPayload) (it : ItemRec) (ni : ItemRec),
      db.items.find? (fun j => j.id = id) = some it →
      (updateItem db id p).2 = .updated ni →
      ni.updatedAt = it.updatedAt) := by
  have hsup : ∀ (db : DB) (id : String) (p : SupplierPayload) (s : SupplierRec)
       (ns : SupplierRec),
      db.suppliers.find? (fun t => t.id = id) = some s →
      p.updatedAt = none →
      (findByIdAndUpdateSupplier db id p).2 = .updated ns →
      ns.updatedAt = s.updatedAt := by
    intro db id p s ns hfind hup h
    simp only [findByIdAndUpdateSupplier, hfind] at h
    split at h
    · simp only [UpdateSupplierResult.updated.injEq] at h
      subst h
      simp [applySupplierUpdate, hup]
    · simp at h
  refine ⟨?_, ?_, hsup, hsup, ?_⟩
  · intro db p newId now doc h
    simp only [createSupplier] at h
    split at h
    · simp at h
    · split at h
      · simp at h
      · simp only [CreateSupplierResult.created.injEq] at h
        subst h
        rfl
  · intro db p newId now doc h
    have hsave : ∀ doc, (saveNewItem db p newId now).2 = .created doc →
        doc.updatedAt = now := by
      intro doc h
      simp only [saveNewItem] at h
      split at h
      · simp at h
      · split at h
        · simp at h
        · simp only [CreateItemResult.created.injEq] at h
          subst h
          rfl
    simp only [createItem] at h
    split at h
    · split at h
      · split at h
        · exact hsave doc h
        · simp at h
      · exact hsave doc h
    · exact hsave doc h
  · intro db id p it ni hfind h
    simp only [updateItem, hfind] at h
    split at h
    · simp only [UpdateItemResult.updated.injEq] at h
      subst h
      simp [applyItemUpdate]
    · simp at h

/-- Witness for c9_updatedAt_amended: creating a supplier at time 7
stamps updatedAt 7, and the counterexample update leaves updatedAt at
its stored value 1. -/
theorem c9_updatedAt_witness :
    (supplierDocOfPayload { name := some "Acme" } "s1" 7).updatedAt = 7 ∧
    ∀ ns, (partialUpdateSupplier c9DB "s1" { name := some "Nadir" }).2 = .updated ns →
      ns.updatedAt = 1 :=
  ⟨c9_updatedAt_amended.1 { suppliers := [], items := [] } { name := some "Acme" }
      "s1" 7 _ rfl,
   fun ns h => c9_updatedAt_amended.2.2.2.1 c9DB "s1" _ c9Sup ns rfl rfl h⟩

/-- A payload violating both the stock rule and the price rule. -/
def c5Bad : ItemPayload :=
  { name := some "x", category := some "General",
    stock := some (-1), price := some (-1) }

/-- C5 counterexample: on a payload whose stock and price both violate
their rules, the ad hoc validateItem variant returns the single stock
message — the price violation is never surfaced, so the result does
not enumerate every violated rule. -/
theorem c5_adhoc_first_error_cex :
    AdHoc.validateItem c5Bad = .error "Stock must be a positive number" ∧
    ((-1 : ℚ) < 0) ∧
    AdHoc.validateItem c5Bad ≠ .error "Price must be a positive number" := by
  have e : AdHoc.validateItem c5Bad = .error "Stock must be a positive number" := rfl
  refine ⟨e, by norm_num, ?_⟩
  intro h
  rw [e] at h
  injection h with h2
  exact absurd h2 (by decide)

/-- C5 amended: the express-validator validateItem chain reports every
violated rule of the payload in one pass, each error carrying the
field name and its message, while the ad hoc variant stops at the
first violation encountered: whenever its stock check fires, the
single stock message is the entire result, whatever the price field
contains. -/
theorem c5_validation_errors_amended :
    (∀ p : ItemPayload,
      (strTrim (p.name.getD "") = "" →
        ("name", "Item name is required") ∈ Validation.validateItem p) ∧
      (100 < (strTrim (p.name.getD "")).length →
        ("name", "Item name cannot exceed 100 characters") ∈ Validation.validateItem p) ∧
      (strTrim (p.category.getD "") = "" →
        ("category", "Category is required") ∈ Validation.validateItem p) ∧
      (itemCategories.contains (strTrim (p.category.getD "")) = false →
        ("category", "Invalid category") ∈ Validation.validateItem p) ∧
      ((p.stock = none ∨ ∃ n, p.stock = some n ∧ n < 0) →
        ("stock", "Stock must be a non-negative integer") ∈ Validation.validateItem p) ∧
      ((p.price = none ∨ ∃ q, p.price = some q ∧ q < 0) →
        ("price", "Price must be a non-negative number") ∈ Validation.validateItem p) ∧
      ((p.supplier = none ∨ ∃ s, p.supplier = some s ∧ isMongoId s = false) →
        ("supplier", "Invalid supplier ID") ∈ Validation.validateItem p) ∧
      (∀ d, p.description = some d → 500 < d.length →
        ("description", "Description cannot exceed 500 characters") ∈
          Validation.validateItem p)) ∧
    (∀ p : ItemPayload, jsTruthyStr p.name = true → jsTruthyStr p.category = true →
      (∃ n, p.stock = some n ∧ n < 0) →
      AdHoc.validateItem p = .error "Stock must be a positive number") := by
  constructor
  · intro p
    refine ⟨?_, ?_, ?_, ?_, ?_, ?_, ?_, ?_⟩
    · intro h
      simp [Validation.validateItem, h]
    · intro h
      simp [Validation.validateItem, h, Nat.not_le_of_lt h]
    · intro h
      simp [Validation.validateItem, h]
    · intro h
      simp [Validation.validateItem, h]
      exact Or.inl (by simpa using h)
    · rintro (h | ⟨n, h, hneg⟩)
      · simp [Validation.validateItem, h]
      · simp [Validation.validateItem, h, hneg]
    · rintro (h | ⟨q, h, hneg⟩)
      · simp [Validation.validateItem, h]
      · simp [Validation.validateItem, h, hneg]
    · rintro (h | ⟨s, h, hbad⟩)
      · simp [Validation.validateItem, h]
      · simp [Validation.validateItem, h, hbad]
    · intro d hd hlen
      simp [Validation.validateItem, hd, hlen, Nat.not_le_of_lt hlen]
  · rintro p hn hc ⟨n, hstock, hneg⟩
    simp [AdHoc.validateItem, hn, hc, hstock, hneg]

/-- Witness for c5_validation_errors_amended: on the double violation
payload the express-validator chain reports both the stock and the
price error, and the ad hoc variant returns only the stock message. -/
theorem c5_validation_errors_witness :
    ("stock", "Stock must be a non-negative integer") ∈ Validation.validateItem c5Bad ∧
    ("price", "Price must be a non-negative number") ∈ Validation.validateItem c5Bad ∧
    AdHoc.validateItem c5Bad = .error "Stock must be a positive number" :=
  ⟨(c5_validation_errors_amended.1 c5Bad).2.2.2.2.1 (Or.inr ⟨-1, rfl, by decide⟩),
   (c5_validation_errors_amended.1 c5Bad).2.2.2.2.2.1 (Or.inr ⟨-1, rfl, by norm_num⟩),
   c5_validation_errors_amended.2 c5Bad (by decide) (by decide) ⟨-1, rfl, by decide⟩⟩

/-- A 501-character description, beyond the 500-character limit of the
full-mode rule. -/
def c6LongDesc : String := String.mk (List.replicate 501 'a')

/-- A partial payload consisting only of that description. -/
def c6BadPartial : ItemPayload := { description := some c6LongDesc }

/-- C6 counterexample: a partial payload whose present description
field breaks the 500-character full-mode rule passes partial
validation with no error, because the partial chain carries no
description rule at all. -/
theorem c6_partial_description_cex :
    Validation.validateItemPartial c6BadPartial = [] ∧
    500 < c6LongDesc.length ∧
    ("description", "Description cannot exceed 500 characters") ∈
      Validation.validateItem
        { name := some "x", category := some "General", stock := some 1,
          price := some 1, supplier := some "aaaaaaaaaaaaaaaaaaaaaaaa",
          description := some c6LongDesc } := by
  have hlen : c6LongDesc.length = 501 := by
    show (List.replicate 501 'a').length = 501
    exact List.length_replicate _ _
  have h5 : 500 < c6LongDesc.length := by omega
  refine ⟨rfl, h5, ?_⟩
  simp [Validation.validateItem, h5]

/-- C6 amended: in partial mode every absent field validates
successfully and every present field among name, category, stock,
price and supplier is held to exactly its full-mode rule, but a
present description is never validated: the partial result is
insensitive to the description field, although full mode bounds it by
500 characters. -/
theorem c6_partial_validation_amended :
    (Validation.validateItemPartial {} = []) ∧
    (∀ (p : ItemPayload) (d : Option String),
      Validation.validateItemPartial { p with description := d } =
        Validation.validateItemPartial p) ∧
    (∀ p : ItemPayload,
      Validation.validateItemPartial p = [] ↔
        ((∀ s, p.name = some s → strTrim s ≠ "" ∧ (strTrim s).length ≤ 100) ∧
         (∀ s, p.category = some s → itemCategories.contains (strTrim s) = true) ∧
         (∀ n, p.stock = some n → 0 ≤ n) ∧
         (∀ q, p.price = some q → 0 ≤ q) ∧
         (∀ s, p.supplier = some s → isMongoId s = true))) ∧
    (∀ p : ItemPayload,
      Validation.validateItem p = [] ↔
        (strTrim (p.name.getD "") ≠ "" ∧ (strTrim (p.name.getD "")).length ≤ 100 ∧
         strTrim (p.category.getD "") ≠ "" ∧
         itemCategories.contains (strTrim (p.category.getD "")) = true ∧
         (∃ n, p.stock = some n ∧ 0 ≤ n) ∧
         (∃ q, p.price = some q ∧ 0 ≤ q) ∧
         (∃ s, p.supplier = some s ∧ isMongoId s = true) ∧
         (∀ d, p.description = some d → d.length ≤ 500))) := by
  refine ⟨rfl, ?_, ?_, ?_⟩
  · intro p d
    rfl
  · intro p
    obtain ⟨na, ca, st, pr, su, de⟩ := p
    cases na <;> cases ca <;> cases st <;> cases pr <;> cases su <;>
      simp [Validation.validateItemPartial, List.append_eq_nil, and_assoc]
  · intro p
    obtain ⟨na, ca, st, pr, su, de⟩ := p
    cases st <;> cases pr <;> cases su <;> cases de <;>
      simp [Validation.validateItem, List.append_eq_nil, and_assoc]

/-- Specification-side list of distinct categories in insertion order
of first occurrence. -/
def firstOccCats (items : List ItemRec) : List String :=
  items.foldl (fun acc it => if it.category ∈ acc then acc else acc ++ [it.category]) []

/-- Specification-side sum of JavaScript numbers, folded from 0 the
way the reduce calls of the report do. -/
def jsSum (l : List JsNum) : JsNum := l.foldl jsAdd (.num 0)

/-- The accumulator increment performed for one item. -/
def bumpAgg (a : CatAgg) (s v : JsNum) : CatAgg :=
  ⟨a.count + 1, jsAdd a.totalStock s, jsAdd a.totalValue v⟩

/-- Specification-side per-category aggregate: item count, stock sum
and value sum over the items of one category. -/
def specCatAgg (c : String) (items : List ItemRec) : CatAgg :=
  ⟨(items.filter (fun it => it.category = c)).length,
   jsSum ((items.filter (fun it => it.category = c)).map (fun it => jsRead it.stock)),
   jsSum ((items.filter (fun it => it.category = c)).map
     (fun it => jsMul (jsRead it.stock) (jsRead it.price)))⟩

theorem lookup_map_isSome (L : List String) (f : String → CatAgg) (c : String) :
    (List.lookup c (L.map (fun k => (k, f k)))).isSome = true ↔ c ∈ L := by
  induction L with
  | nil => simp [List.lookup]
  | cons a t ih =>
    by_cases h : c = a
    · subst h
      simp [List.lookup]
    · have hbeq : (c == a) = false := by simpa using h
      simp [List.lookup, hbeq, h, ih]

theorem bumpEntry_map (L : List String) (f : String → CatAgg) (c : String)
    (s v : JsNum) (hnd : L.Nodup) :
    bumpEntry (L.map (fun k => (k, f k))) c s v =
      L.map (fun k => (k, if k = c then bumpAgg (f k) s v else f k)) := by
  induction L with
  | nil => rfl
  | cons a t ih =>
    simp only [List.map_cons, bumpEntry]
    by_cases h : a = c
    · subst h
      rw [if_pos rfl]
      have hnotin : a ∉ t := (List.nodup_cons.mp hnd).1
      refine congrArg₂ _ (by simp [bumpAgg]) ?_
      refine (List.map_congr_left ?_)
      intro x hx
      have : x ≠ a := fun he => hnotin (he ▸ hx)
      simp [this]
    · rw [if_neg h]
      refine congrArg₂ _ (by simp [h]) ?_
      exact ih (List.nodup_cons.mp hnd).2

theorem specCatAgg_append (c : String) (l : List ItemRec) (it : ItemRec) :
    specCatAgg c (l ++ [it]) =
      if it.category = c then
        bumpAgg (specCatAgg c l) (jsRead it.stock)
          (jsMul (jsRead it.stock) (jsRead it.price))
      else specCatAgg c l := by
  by_cases h : it.category = c
  · simp [specCatAgg, List.filter_append, h, bumpAgg, jsSum, List.foldl_append]
  · simp [specCatAgg, List.filter_append, h]

theorem firstOccCats_append_singleton (l : List ItemRec) (it : ItemRec) :
    firstOccCats (l ++ [it]) =
      if it.category ∈ firstOccCats l then firstOccCats l
      else firstOccCats l ++ [it.category] := by
  simp [firstOccCats, List.foldl_append]

theorem firstOccCats_nodup (items : List ItemRec) : (firstOccCats items).Nodup := by
  suffices h : ∀ acc : List String, acc.Nodup →
      (items.foldl (fun acc it =>
        if it.category ∈ acc then acc else acc ++ [it.category]) acc).Nodup by
    exact h [] List.nodup_nil
  induction items with
  | nil => intro acc hacc; exact hacc
  | cons x t ih =>
    intro acc hacc
    simp only [List.foldl_cons]
    apply ih
    by_cases h : x.category ∈ acc
    · simpa [h] using hacc
    · rw [if_neg h]
      simp [List.nodup_append, hacc, h]

theorem firstOccCats_mem (items : List ItemRec) (c : String) :
    c ∈ firstOccCats items ↔ ∃ it ∈ items, it.category = c := by
  suffices h : ∀ acc : List String,
      (c ∈ items.foldl (fun acc it =>
        if it.category ∈ acc then acc else acc ++ [it.category]) acc ↔
       c ∈ acc ∨ ∃ it ∈ items, it.category = c) by
    simpa [firstOccCats] using h []
  induction items with
  | nil => intro acc; simp
  | cons x t ih =>
    intro acc
    simp only [List.foldl_cons]
    rw [ih]
    by_cases h : x.category ∈ acc
    · rw [if_pos h]
      simp only [List.mem_cons]
      constructor
      · rintro (hc | ⟨it, hit, hcat⟩)
        · exact Or.inl hc
        · exact Or.inr ⟨it, Or.inr hit, hcat⟩
      · rintro (hc | ⟨it, (rfl | hit), hcat⟩)
        · exact Or.inl hc
        · exact Or.inl (hcat ▸ h)
        · exact Or.inr ⟨it, hit, hcat⟩
    · rw [if_neg h]
      simp only [List.mem_append, List.mem_cons, List.not_mem_nil, or_false]
      constructor
      · rintro ((hc | hc) | ⟨it, hit, hcat⟩)
        · exact Or.inl hc
        · exact Or.inr ⟨x, Or.inl rfl, hc.symm⟩
        · exact Or.inr ⟨it, Or.inr hit, hcat⟩
      · rintro (hc | ⟨it, (rfl | hit), hcat⟩)
        · exact Or.inl (Or.inl hc)
        · exact Or.inl (Or.inr hcat.symm)
        · exact Or.inr ⟨it, hit, hcat⟩

theorem specCatAgg_zero (c : String) (items : List ItemRec)
    (h : ∀ it ∈ items, it.category ≠ c) :
    specCatAgg c items = ⟨0, .num 0, .num 0⟩ := by
  have hfil : items.filter (fun it => it.category = c) = [] := by
    rw [List.filter_eq_nil_iff]
    intro it hit
    simpa using h it hit
  simp [specCatAgg, hfil, jsSum]

theorem byCategoryMap_spec (items : List ItemRec) :
    byCategoryMap items = (firstOccCats items).map (fun c => (c, specCatAgg c items)) := by
  induction items using List.reverseRecOn with
  | nil => rfl
  | append_singleton l it ih =>
    have hstep : byCategoryMap (l ++ [it]) = byCatStep (byCategoryMap l) it := by
      simp [byCategoryMap, List.foldl_append]
    rw [hstep, ih, firstOccCats_append_singleton]
    set s := jsRead it.stock with hs
    set v := jsMul (jsRead it.stock) (jsRead it.price) with hv
    by_cases hmem : it.category ∈ firstOccCats l
    · rw [if_pos hmem]
      have hlk : ((List.map (fun c => (c, specCatAgg c l)) (firstOccCats l)).lookup
          it.category).isSome = true :=
        (lookup_map_isSome _ _ _).mpr hmem
      simp only [byCatStep, hlk, if_true]
      rw [bumpEntry_map _ _ _ _ _ (firstOccCats_nodup l)]
      refine List.map_congr_left ?_
      intro k hk
      by_cases hkc : k = it.category
      · subst hkc
        simp [specCatAgg_append]
      · have : ¬ (it.category = k) := fun he => hkc he.symm
        simp [hkc, specCatAgg_append, this]
    · rw [if_neg hmem]
      have hlk : ((List.map (fun c => (c, specCatAgg c l)) (firstOccCats l)).lookup
          it.category).isSome = false := by
        rw [Bool.eq_false_iff]
        intro hcon
        exact hmem ((lookup_map_isSome _ _ _).mp hcon)
      simp only [byCatStep, hlk, Bool.false_eq_true, if_false]
      have hnone : ∀ jt ∈ l, jt.category ≠ it.category := by
        intro jt hjt he
        exact hmem ((firstOccCats_mem l it.category).mpr ⟨jt, hjt, he⟩)
      have hznote : specCatAgg it.category l = ⟨0, .num 0, .num 0⟩ :=
        specCatAgg_zero _ _ hnone
      have hrw : List.map (fun c => (c, specCatAgg c l)) (firstOccCats l) ++
            [(it.category, (⟨0, .num 0, .num 0⟩ : CatAgg))] =
          List.map (fun c => (c, specCatAgg c l)) (firstOccCats l ++ [it.category]) := by
        rw [List.map_append]
        simp [hznote]
      rw [hrw, bumpEntry_map _ _ _ _ _ ?nodup]
      case nodup =>
        simp [List.nodup_append, firstOccCats_nodup l, hmem]
      refine List.map_congr_left ?_
      intro k hk
      by_cases hkc : k = it.category
      · subst hkc
        simp [specCatAgg_append, hznote]
      · have : ¬ (it.category = k) := fun he => hkc he.symm
        simp [hkc, specCatAgg_append, this]

theorem jsSum_nums (l : List ℚ) : jsSum (l.map JsNum.num) = .num l.sum := by
  suffices h : ∀ a : ℚ, (l.map JsNum.num).foldl jsAdd (.num a) = .num (a + l.sum) by
    simpa [jsSum] using h 0
  induction l with
  | nil => intro a; simp
  | cons q t ih =>
    intro a
    simp only [List.map_cons, List.foldl_cons, jsAdd]
    rw [ih, List.sum_cons]
    congr 1
    ring

/-- C3: for every item list whose records carry stock and price (the
schema defaults guarantee this for persisted Items) and whose
categories are not purely numeric strings (the schema enum guarantees
this; it is the domain on which a JavaScript object iterates its keys
in insertion order), the inventory report returns the list length, the
stock sum, the stock-times-price sum, one byCategory entry per
distinct category in first-occurrence order carrying that category's
count and sums, and the stock <= 5 items projected to id, name and
stock. -/
theorem c3_inventory_report (items : List ItemRec)
    (hsp : ∀ it ∈ items, it.stock.isSome ∧ it.price.isSome)
    (_hcat : ∀ it ∈ items, it.category.data.any (fun ch => !ch.isDigit) = true) :
    (getInventoryReport items).totalItems = items.length ∧
    (getInventoryReport items).totalStock =
      .num ((items.map (fun it => it.stock.getD 0)).sum) ∧
    (getInventoryReport items).totalValue =
      .num ((items.map (fun it => it.stock.getD 0 * it.price.getD 0)).sum) ∧
    (getInventoryReport items).byCategory = (firstOccCats items).map (fun c =>
      { category := c
        itemCount := (items.filter (fun it => it.category = c)).length
        totalStock := .num (((items.filter (fun it => it.category = c)).map
          (fun it => it.stock.getD 0)).sum)
        totalValue := .num (((items.filter (fun it => it.category = c)).map
          (fun it => it.stock.getD 0 * it.price.getD 0)).sum) }) ∧
    (getInventoryReport items).lowStock =
      (items.filter (fun it => it.stock.getD 0 ≤ 5)).map
        (fun it => { id := it.id, name := it.name, stock := it.stock }) := by
  have convS : ∀ sub : List ItemRec, (∀ it ∈ sub, it.stock.isSome) →
      jsSum (sub.map (fun it => jsRead it.stock)) =
        .num ((sub.map (fun it => it.stock.getD 0)).sum) := by
    intro sub hsub
    rw [show sub.map (fun it => jsRead it.stock) =
        (sub.map (fun it => it.stock.getD 0)).map JsNum.num by
      rw [List.map_map]
      refine List.map_congr_left ?_
      intro it hit
      obtain ⟨q, hq⟩ := Option.isSome_iff_exists.mp (hsub it hit)
      simp [jsRead, hq]]
    exact jsSum_nums _
  have convV : ∀ sub : List ItemRec,
      (∀ it ∈ sub, it.stock.isSome ∧ it.price.isSome) →
      jsSum (sub.map (fun it => jsMul (jsRead it.stock) (jsRead it.price))) =
        .num ((sub.map (fun it => it.stock.getD 0 * it.price.getD 0)).sum) := by
    intro sub hsub
    rw [show sub.map (fun it => jsMul (jsRead it.stock) (jsRead it.price)) =
        (sub.map (fun it => it.stock.getD 0 * it.price.getD 0)).map JsNum.num by
      rw [List.map_map]
      refine List.map_congr_left ?_
      intro it hit
      obtain ⟨q, hq⟩ := Option.isSome_iff_exists.mp (hsub it hit).1
      obtain ⟨r, hr⟩ := Option.isSome_iff_exists.mp (hsub it hit).2
      simp [jsRead, jsMul, hq, hr]]
    exact jsSum_nums _
  refine ⟨rfl, ?_, ?_, ?_, ?_⟩
  · show items.foldl (fun sum it => jsAdd sum (jsRead it.stock)) (.num 0) = _
    rw [show items.foldl (fun sum it => jsAdd sum (jsRead it.stock)) (.num 0) =
        jsSum (items.map (fun it => jsRead it.stock)) from
      (List.foldl_map _ _ _ _).symm]
    exact convS items (fun it hit => (hsp it hit).1)
  · show items.foldl
        (fun sum it => jsAdd sum (jsMul (jsRead it.stock) (jsRead it.price)))
        (.num 0) = _
    rw [show items.foldl
        (fun sum it => jsAdd sum (jsMul (jsRead it.stock) (jsRead it.price)))
        (.num 0) =
        jsSum (items.map (fun it => jsMul (jsRead it.stock) (jsRead it.price))) from
      (List.foldl_map _ _ _ _).symm]
    exact convV items hsp
  · show (byCategoryMap items).map
        (fun p => (⟨p.1, p.2.count, p.2.totalStock, p.2.totalValue⟩ : CatSummary)) = _
    rw [byCategoryMap_spec, List.map_map]
    refine List.map_congr_left ?_
    intro c hc
    simp only [Function.comp_apply, specCatAgg, CatSummary.mk.injEq]
    refine ⟨trivial, trivial, ?_, ?_⟩
    · exact convS _ (fun it hit => (hsp it (List.mem_of_mem_filter hit)).1)
    · exact convV _ (fun it hit => hsp it (List.mem_of_mem_filter hit))
  · show (items.filter (fun it => jsLe (jsRead it.stock) 5)).map
        (fun it => (⟨it.id, it.name, it.stock⟩ : LowStockEntry)) = _
    rw [List.filter_congr (q := fun it => decide (it.stock.getD 0 ≤ 5)) ?_]
    intro it hit
    obtain ⟨q, hq⟩ := Option.isSome_iff_exists.mp (hsp it hit).1
    simp [jsLe, jsRead, hq]

/-- The three-item worked example of the specification. -/
def c3Items : List ItemRec :=
  [{ id := "i1", name := "One", category := "A", stock := some 3, price := some 10,
     supplier := "s" },
   { id := "i2", name := "Two", category := "A", stock := some 10, price := some 5,
     supplier := "s" },
   { id := "i3", name := "Three", category := "B", stock := some 2, price := some 0,
     supplier := "s" }]

/-- Witness for c3_inventory_report: the worked example evaluates to
totalItems 3, totalStock 15, totalValue 80, the two byCategory entries
in first-occurrence order, and the two low-stock items. -/
theorem c3_inventory_report_witness :
    (getInventoryReport c3Items).totalItems = 3 ∧
    (getInventoryReport c3Items).totalStock = .num 15 ∧
    (getInventoryReport c3Items).totalValue = .num 80 ∧
    (getInventoryReport c3Items).byCategory =
      [{ category := "A", itemCount := 2, totalStock := .num 13, totalValue := .num 80 },
       { category := "B", itemCount := 1, totalStock := .num 2, totalValue := .num 0 }] ∧
    (getInventoryReport c3Items).lowStock =
      [{ id := "i1", name := "One", stock := some 3 },
       { id := "i3", name := "Three", stock := some 2 }] := by
  obtain ⟨h1, h2, h3, h4, h5⟩ := c3_inventory_report c3Items (by decide) (by decide)
  refine ⟨h1, ?_, ?_, ?_, ?_⟩
  · rw [h2]
    norm_num [c3Items]
  · rw [h3]
    norm_num [c3Items]
  · rw [h4, show firstOccCats c3Items = ["A", "B"] from by decide]
    simp [c3Items, List.filter_cons]
    norm_num
  · rw [h5]
    norm_num [c3Items]

theorem jsAdd_nan_right (x : JsNum) : jsAdd x .nan = .nan := by
  cases x <;> rfl

theorem foldl_jsAdd_nan (l : List JsNum) : l.foldl jsAdd .nan = .nan := by
  induction l with
  | nil => rfl
  | cons x t ih =>
    simp only [List.foldl_cons]
    rw [show jsAdd .nan x = .nan from rfl]
    exact ih

theorem foldl_jsAdd_of_mem_nan (l : List JsNum) (acc : JsNum)
    (h : JsNum.nan ∈ l) : l.foldl jsAdd acc = .nan := by
  induction l generalizing acc with
  | nil => cases h
  | cons x t ih =>
    rcases List.mem_cons.mp h with hx | ht
    · subst hx
      simp only [List.foldl_cons, jsAdd_nan_right]
      exact foldl_jsAdd_nan t
    · simp only [List.foldl_cons]
      exact ih _ ht

/-- An item whose stock field is absent. -/
def c8Item : ItemRec :=
  { id := "i1", name := "Gadget", category := "A", stock := none, price := some 10,
    supplier := "s" }

/-- C8 counterexample: on a list containing a record without a stock
field, the controller inventory report produces NaN — a non-numeric
result — for totalStock, totalValue and the per-category sums, instead
of treating the missing value as zero. -/
theorem c8_missing_stock_nan_cex :
    (getInventoryReport [c8Item]).totalStock = .nan ∧
    (getInventoryReport [c8Item]).totalValue = .nan ∧
    (getInventoryReport [c8Item]).byCategory =
      [{ category := "A", itemCount := 1, totalStock := .nan, totalValue := .nan }] ∧
    JsNum.nan ≠ .num 0 :=
  ⟨rfl, rfl, rfl, by simp⟩

/-- C8 amended: the server.js report handler guards every read with
(value or 0) and so treats missing stock and price as zero in its
totals and low-stock filter (it computes no per-category sums at all),
while the controller getInventoryReport reads the fields unguarded, so
one record with a missing stock drives totalStock, totalValue and that
record's per-category sums to NaN. -/
theorem c8_missing_values_amended :
    (∀ items : List ItemRec,
      (serverInventoryReport items).totalItems = items.length ∧
      (serverInventoryReport items).totalStock =
        .num ((items.map (fun it => it.stock.getD 0)).sum) ∧
      (serverInventoryReport items).totalValue =
        .num ((items.map (fun it => it.stock.getD 0 * it.price.getD 0)).sum) ∧
      (serverInventoryReport items).lowStock =
        items.filter (fun it => it.stock.getD 0 ≤ 5)) ∧
    (∀ (items : List ItemRec) (it : ItemRec), it ∈ items → it.stock = none →
      (getInventoryReport items).totalStock = .nan ∧
      (getInventoryReport items).totalValue = .nan ∧
      ∃ e ∈ (getInventoryReport items).byCategory,
        e.category = it.category ∧ e.totalStock = .nan ∧ e.totalValue = .nan) := by
  constructor
  · intro items
    refine ⟨rfl, ?_, ?_, rfl⟩
    · show items.foldl (fun sum it => jsAdd sum (.num (it.stock.getD 0))) (.num 0) = _
      rw [show items.foldl (fun sum it => jsAdd sum (.num (it.stock.getD 0))) (.num 0) =
          jsSum (items.map (fun it => JsNum.num (it.stock.getD 0))) from
        (List.foldl_map _ _ _ _).symm]
      rw [show items.map (fun it => JsNum.num (it.stock.getD 0)) =
          (items.map (fun it => it.stock.getD 0)).map JsNum.num from
        (List.map_map _ _ _).symm]
      exact jsSum_nums _
    · show items.foldl
          (fun sum it => jsAdd sum (.num (it.stock.getD 0 * it.price.getD 0)))
          (.num 0) = _
      rw [show items.foldl
          (fun sum it => jsAdd sum (.num (it.stock.getD 0 * it.price.getD 0)))
          (.num 0) =
          jsSum (items.map (fun it => JsNum.num (it.stock.getD 0 * it.price.getD 0))) from
        (List.foldl_map _ _ _ _).symm]
      rw [show items.map (fun it => JsNum.num (it.stock.getD 0 * it.price.getD 0)) =
          (items.map (fun it => it.stock.getD 0 * it.price.getD 0)).map JsNum.num from
        (List.map_map _ _ _).symm]
      exact jsSum_nums _
  · intro items it hmem hnone
    have hnanS : JsNum.nan ∈ items.map (fun j => jsRead j.stock) :=
      List.mem_map.mpr ⟨it, hmem, by simp [jsRead, hnone]⟩
    have hnanV : JsNum.nan ∈ items.map (fun j => jsMul (jsRead j.stock) (jsRead j.price)) :=
      List.mem_map.mpr ⟨it, hmem, by cases j : it.price <;> simp [jsRead, jsMul, hnone]⟩
    refine ⟨?_, ?_, ?_⟩
    · show items.foldl (fun sum j => jsAdd sum (jsRead j.stock)) (.num 0) = _
      rw [show items.foldl (fun sum j => jsAdd sum (jsRead j.stock)) (.num 0) =
          (items.map (fun j => jsRead j.stock)).foldl jsAdd (.num 0) from
        (List.foldl_map _ _ _ _).symm]
      exact foldl_jsAdd_of_mem_nan _ _ hnanS
    · show items.foldl
          (fun sum j => jsAdd sum (jsMul (jsRead j.stock) (jsRead j.price)))
          (.num 0) = _
      rw [show items.foldl
          (fun sum j => jsAdd sum (jsMul (jsRead j.stock) (jsRead j.price)))
          (.num 0) =
          (items.map (fun j => jsMul (jsRead j.stock) (jsRead j.price))).foldl
            jsAdd (.num 0) from
        (List.foldl_map _ _ _ _).symm]
      exact foldl_jsAdd_of_mem_nan _ _ hnanV
    · have hfmem : it ∈ items.filter (fun j => j.category = it.category) :=
        List.mem_filter.mpr ⟨hmem, by simp⟩
      refine ⟨⟨it.category, (specCatAgg it.category items).count,
        (specCatAgg it.category items).totalStock,
        (specCatAgg it.category items).totalValue⟩, ?_, rfl, ?_, ?_⟩
      · show _ ∈ (byCategoryMap items).map
          (fun p => (⟨p.1, p.2.count, p.2.totalStock, p.2.totalValue⟩ : CatSummary))
        rw [byCategoryMap_spec, List.map_map]
        refine List.mem_map.mpr ⟨it.category, ?_, rfl⟩
        exact (firstOccCats_mem items it.category).mpr ⟨it, hmem, rfl⟩
      · show jsSum ((items.filter (fun j => j.category = it.category)).map
          (fun j => jsRead j.stock)) = .nan
        exact foldl_jsAdd_of_mem_nan _ _
          (List.mem_map.mpr ⟨it, hfmem, by simp [jsRead, hnone]⟩)
      · show jsSum ((items.filter (fun j => j.category = it.category)).map
          (fun j => jsMul (jsRead j.stock) (jsRead j.price))) = .nan
        exact foldl_jsAdd_of_mem_nan _ _
          (List.mem_map.mpr ⟨it, hfmem, by cases j : it.price <;>
            simp [jsRead, jsMul, hnone]⟩)

/-- Witness for c8_missing_values_amended: on the singleton list with
the stockless record the server handler reports zero while the
controller report yields NaN. -/
theorem c8_missing_values_witness :
    (serverInventoryReport [c8Item]).totalStock = .num 0 ∧
    (getInventoryReport [c8Item]).totalStock = .nan := by
  constructor
  · rw [(c8_missing_values_amended.1 [c8Item]).2.1]
    norm_num [c8Item]
  · exact (c8_missing_values_amended.2 [c8Item] c8Item (by simp) rfl).1

/-- An item inside the claimed range and one below it. -/
def c4ItLow : ItemRec :=
  { id := "i1", name := "Alpha", category := "General", stock := some 1,
    price := some 1, supplier := "s" }

def c4ItHigh : ItemRec :=
  { id := "i2", name := "Beta", category := "General", stock := some 10,
    price := some 1, supplier := "s" }

/-- C4: with minStock 2 and maxStock 5 supplied together, the search
returns the stock-1 item — the maxStock assignment overwrote the
minStock bound, so only the upper bound constrains the result — while
the conjunction of both bounds the specification demands returns
nothing.  The stock-10 item shows the surviving bound is the upper
one. -/
theorem c4_search_stock_bounds_overwrite :
    searchItems [c4ItLow, c4ItHigh] none none (some 2) (some 5) = [c4ItLow] ∧
    specSearchItems [c4ItLow, c4ItHigh] none none (some 2) (some 5) = [] ∧
    buildSearchQuery none none (some 2) (some 5) =
      { qPat := none, category := none, stockCond := some (.lte 5) } := by
  refine ⟨?_, ?_, ?_⟩
  · show List.filter _ _ = _
    have h1 : matchesQuery (buildSearchQuery none none (some 2) (some 5)) c4ItLow = true := by
      simp only [buildSearchQuery, matchesQuery, jsTruthyStr, c4ItLow]
      norm_num
    have h2 : matchesQuery (buildSearchQuery none none (some 2) (some 5)) c4ItHigh = false := by
      simp only [buildSearchQuery, matchesQuery, jsTruthyStr, c4ItHigh]
      norm_num
    simp [searchItems, h1, h2]
  · have h1 : ¬ ((2 : ℚ) ≤ 1) := by norm_num
    have h2 : ¬ ((10 : ℚ) ≤ 5) := by norm_num
    simp [specSearchItems, c4ItLow, c4ItHigh, h1, h2]
  · rfl

/-- Characters that carry no special meaning in a regular expression:
everything outside the metacharacter set.  For a pattern built solely
from these, the regex match degenerates to substring search. -/
def regexLiteralChar (c : Char) : Bool :=
  !(c ∈ ['.', '\\', '*', '+', '?', '(', ')', '[', ']',
         Char.ofNat 123, Char.ofNat 125, '|', '^', '$'])

theorem parseRegex_lits (p : List Char) (hp : ∀ c ∈ p, c ≠ '.' ∧ c ≠ '\\') :
    parseRegex p = p.map RTok.lit := by
  induction p with
  | nil => rfl
  | cons c t ih =>
    obtain ⟨h1, h2⟩ := hp c (List.mem_cons_self c t)
    rw [show parseRegex (c :: t) = RTok.lit c :: parseRegex t by
      rw [parseRegex.eq_def]
      simp [h1, h2]]
    rw [ih (fun x hx => hp x (List.mem_cons_of_mem _ hx))]
    rfl

theorem matchHere_lits (p : List Char) (s : List Char) :
    matchHere (p.map RTok.lit) s =
      (p.map Char.toLower).isPrefixOf (s.map Char.toLower) := by
  induction p generalizing s with
  | nil => cases s <;> rfl
  | cons a t ih =>
    cases s with
    | nil => rfl
    | cons b u =>
      by_cases h : a.toLower = b.toLower <;>
        simp [matchHere, rtokMatch, List.isPrefixOf, h, ih]

theorem regexSearch_lits (p : List Char) (s : List Char) :
    regexSearch (p.map RTok.lit) s =
      containsSub (p.map Char.toLower) (s.map Char.toLower) := by
  induction s with
  | nil => cases p <;> rfl
  | cons c u ih =>
    simp [regexSearch, containsSub, matchHere_lits, ih]

theorem regexTest_literal (pat hay : String)
    (h : ∀ c ∈ pat.data, regexLiteralChar c = true) :
    regexTest pat hay = containsCI hay pat := by
  have h2 : ∀ c ∈ pat.data, c ≠ '.' ∧ c ≠ '\\' := by
    intro c hc
    have := h c hc
    simp [regexLiteralChar] at this
    exact ⟨this.1, this.2.1⟩
  rw [regexTest, parseRegex_lits _ h2, regexSearch_lits]
  rfl

/-- An item whose name and category contain no dot. -/
def c7Item : ItemRec :=
  { id := "i1", name := "X", category := "General", stock := some 1,
    price := some 1, supplier := "s" }

/-- C7 counterexample: with the query string consisting of a single
dot, the search matches the item named X although the dot occurs
case-insensitively as a substring of neither the name nor the
category: the q value is interpreted as a regular expression, not as a
literal substring. -/
theorem c7_regex_dot_cex :
    searchItems [c7Item] (some ".") none none none = [c7Item] ∧
    containsCI c7Item.name "." = false ∧
    containsCI c7Item.category "." = false :=
  ⟨rfl, by decide, by decide⟩

/-- C7 amended: the q filter keeps exactly the items whose name or
category matches q as a case-insensitive regular expression; whenever
q contains no regex metacharacter this coincides with case-insensitive
substring occurrence, so within that fragment the claimed
characterisation holds — and lap matches Laptop but neither Desktop
nor General. -/
theorem c7_search_q_amended :
    (∀ (items : List ItemRec) (s : String), s ≠ "" →
      searchItems items (some s) none none none =
        items.filter (fun it => regexTest s it.name || regexTest s it.category)) ∧
    (∀ (s hay : String), (∀ c ∈ s.data, regexLiteralChar c = true) →
      regexTest s hay = containsCI hay s) ∧
    containsCI "Laptop" "lap" = true ∧
    containsCI "Desktop" "lap" = false ∧
    containsCI "General" "lap" = false := by
  refine ⟨?_, regexTest_literal, by decide, by decide, by decide⟩
  intro items s hs
  have hq : buildSearchQuery (some s) none none none =
      { qPat := some s, category := none, stockCond := none } := by
    simp [buildSearchQuery, jsTruthyStr, hs]
  rw [searchItems, hq]
  refine List.filter_congr ?_
  intro it hit
  simp [matchesQuery]

/-- Witness for c7_search_q_amended: concrete instantiations at the
lap query of the specification example. -/
theorem c7_search_q_witness :
    searchItems [c7Item] (some "lap") none none none =
      List.filter (fun it => regexTest "lap" it.name || regexTest "lap" it.category)
        [c7Item] ∧
    regexTest "lap" "Laptop" = containsCI "Laptop" "lap" :=
  ⟨c7_search_q_amended.1 [c7Item] "lap" (by decide),
   c7_search_q_amended.2.1 "lap" "Laptop" (by decide)⟩

/-- Witness for c6_partial_validation_amended: the partial validator
accepts the payload holding only the 501-character description. -/
theorem c6_partial_validation_witness :
    Validation.validateItemPartial { description := some c6LongDesc } = [] := by
  have h := c6_partial_validation_amended.2.1 ({} : ItemPayload) (some c6LongDesc)
  calc Validation.validateItemPartial { description := some c6LongDesc }
      = Validation.validateItemPartial ({} : ItemPayload) := h
    _ = [] := c6_partial_validation_amended.1
